import Mathlib

/-!
Verification of the RSS feed generator (`generate_rss.py`).

The development shallowly embeds the two core functions of the source,
`split_report_title` and the per-item part of `create_rss_feed`, as
executable Lean definitions, and proves or refutes the frozen claims
about them.

Modelling conventions:
* Python dictionaries with optional keys become structures of `Option`
  fields; `none` stands for an absent key (and, where the source tests
  a dictionary for truthiness, also for an empty dictionary, which is
  observationally identical at every such use site).
* Strings are handled through their character lists.  Python's
  whitespace class is modelled by its ASCII members (space, tab,
  newline, carriage return, vertical tab, form feed); non-ASCII
  whitespace and non-ASCII digits are outside the model.
* `datetime.fromisoformat` (Python >= 3.11) is modelled for
  extended-format ISO-8601 strings, the format family the source's
  API produces; see `fromisoformat` below.
-/

namespace RssGen

/-- ASCII members of the Python regex class `\s` / `str.strip` whitespace. -/
def isPySpace (c : Char) : Bool :=
  c == ' ' || c == '\t' || c == '\n' || c == '\r' || c == '\x0b' || c == '\x0c'

/-- The divider character class of `split_report_title`:
hyphen, en-dash, em-dash, colon (`[-–—:]`). -/
def isDivider (c : Char) : Bool :=
  c == '-' || c == '–' || c == '—' || c == ':'

/-- Drop leading whitespace (`\s*` consumed greedily). -/
def dropLeadWs (cs : List Char) : List Char :=
  cs.dropWhile fun c => isPySpace c

/-- Attempt the divider pattern `\s*[-–—:]\s*` at the head of
the list.  On success returns the characters after the (greedy) match. -/
def tryDivMatch (cs : List Char) : Option (List Char) :=
  match dropLeadWs cs with
  | [] => none
  | c :: rest => if isDivider c then some (dropLeadWs rest) else none

/-- Leftmost match of the divider pattern, as `re.split(..., maxsplit=1)`
finds it: scan left to right, at each position try the pattern; on the
first success return the characters before the match and after it. -/
def findFirstL : List Char → Option (List Char × List Char)
  | [] => none
  | c :: rest =>
    match tryDivMatch (c :: rest) with
    | some after => some ([], after)
    | none =>
      match findFirstL rest with
      | none => none
      | some (b, a) => some (c :: b, a)

/-- Number of non-overlapping matches of the divider pattern in the
list, with `re.findall` scan semantics (advance past each match, else
advance one character).  Fuel-indexed to stay structurally recursive;
`cs.length` fuel is always enough since every step consumes a character. -/
def countAux : Nat → List Char → Nat
  | 0, _ => 0
  | _ + 1, [] => 0
  | fuel + 1, c :: rest =>
    match tryDivMatch (c :: rest) with
    | some after => 1 + countAux fuel after
    | none => countAux fuel rest

def countMatchesL (cs : List Char) : Nat := countAux cs.length cs

/-- Python `str.strip()` on a character list (ASCII whitespace model). -/
def pyStripL (cs : List Char) : List Char :=
  ((cs.dropWhile fun c => isPySpace c).reverse.dropWhile fun c => isPySpace c).reverse

/-- Python `str.strip()`. -/
def pyStrip (s : String) : String := String.mk (pyStripL s.toList)

/-- `cs`, lowercased, equals `pat` (ASCII model of `re.IGNORECASE`). -/
def lowEq (cs : List Char) (pat : List Char) : Bool :=
  cs.map Char.toLower == pat

/-- The ordinal suffixes `st|nd|rd|th` on lowercased characters. -/
def ordinalSuffixOk (a b : Char) : Bool :=
  (a == 's' && b == 't') || (a == 'n' && b == 'd') ||
  (a == 'r' && b == 'd') || (a == 't' && b == 'h')

/-- `\s+Report$` : one whitespace character, further whitespace, then
exactly the word `Report` (case-insensitive) ending the string. -/
def wsThenReportEnd (cs : List Char) : Bool :=
  match cs with
  | c :: rest => isPySpace c && lowEq (dropLeadWs rest) ['r', 'e', 'p', 'o', 'r', 't']
  | [] => false

/-- `Special\s+Report$` (case-insensitive). -/
def specialThenReport (cs : List Char) : Bool :=
  lowEq (cs.take 7) ['s', 'p', 'e', 'c', 'i', 'a', 'l'] && wsThenReportEnd (cs.drop 7)

/-- `(Special\s+)?Report$` (case-insensitive). -/
def tailMatch (cs : List Char) : Bool :=
  lowEq cs ['r', 'e', 'p', 'o', 'r', 't'] || specialThenReport cs

/-- `\s+(Special\s+)?Report$` (case-insensitive). -/
def wsThenTail (cs : List Char) : Bool :=
  match cs with
  | c :: rest => isPySpace c && tailMatch (dropLeadWs rest)
  | [] => false

/-- `re.match(r'^\d+(st|nd|rd|th)\s+(Special\s+)?Report$', cs, re.IGNORECASE)`
as a Boolean: the whole list is digits, an ordinal suffix, whitespace,
an optional `Special` token and the word `Report`. -/
def ordinalMatchL (cs : List Char) : Bool :=
  let ds := cs.takeWhile Char.isDigit
  match cs.drop ds.length with
  | a :: b :: rest => !ds.isEmpty && ordinalSuffixOk a.toLower b.toLower && wsThenTail rest
  | _ => false

/-- `split_report_title` from `generate_rss.py`: split the input on the
first occurrence of the divider pattern (with `maxsplit=1` there are two
parts exactly when the pattern matches at least once), strip both parts,
and keep the split only if the left part matches the ordinal pattern;
otherwise return `("", input_string)`. -/
def split_report_title (s : String) : String × String :=
  match findFirstL s.toList with
  | none => ("", s)
  | some (b, a) =>
    let left := pyStripL b
    let right := pyStripL a
    if ordinalMatchL left then (String.mk left, String.mk right) else ("", s)

/-- The ASCII case variants of the ordinal suffixes `st`, `nd`, `rd`,
`th` (the suffixes are matched case-insensitively). -/
def suffixForms : List (List Char) :=
  [['s', 't'], ['S', 't'], ['s', 'T'], ['S', 'T'],
   ['n', 'd'], ['N', 'd'], ['n', 'D'], ['N', 'D'],
   ['r', 'd'], ['R', 'd'], ['r', 'D'], ['R', 'D'],
   ['t', 'h'], ['T', 'h'], ['t', 'H'], ['T', 'H']]

/-! ## Data model of the raw API items -/

/-- A truthy `committee.category` object.  `name := none` models an
object whose `name` key is absent or null; an absent or empty (falsy)
category object is modelled as `none` at the `Committee.category`
field, since the source tests the object for truthiness. -/
structure Category where
  name : Option String
deriving DecidableEq

/-- A truthy `committee` object (the source tests it for truthiness;
an empty committee object behaves identically to an absent one at every
use site, so both are modelled as `none` at `RawItem.committee`). -/
structure Committee where
  house : Option String
  name : Option String
  category : Option Category
deriving DecidableEq

/-- One entry of the `documents` sequence. -/
structure DocumentRec where
  documentId : Option Int
deriving DecidableEq

/-- A raw publication item from the API.  Every field is optional;
`none` models an absent (or JSON-null, where the source treats null
like absence) key. -/
structure RawItem where
  id : Option Int
  description : Option String
  additionalContentUrl : Option String
  documents : Option (List DocumentRec)
  publicationStartDate : Option String
  committee : Option Committee
deriving DecidableEq

/-- The eligibility filter at the top of the item loop of
`create_rss_feed`: skip the item when `committee.house == 'Lords'`,
else skip it when a truthy `committee.category` is present whose
`name` is not `'Select'`. -/
def acceptItem (it : RawItem) : Bool :=
  match it.committee with
  | none => true
  | some c =>
    if c.house == some "Lords" then false
    else
      match c.category with
      | none => true
      | some cat => cat.name == some "Select"

/-! ## Model of `datetime.fromisoformat` (Python >= 3.11) and `strftime`

The source appends `'Z'` to `publicationStartDate` and parses the
result with `datetime.fromisoformat`.  The model below covers the
extended ISO-8601 format family accepted by Python >= 3.11:
`YYYY-MM-DD[*HH[:MM[:SS[.fff...]]][TZ]]` where `*` is any single
separator character and `TZ` is `Z` or `±HH:MM[:SS]`.  Basic
(separator-free) date/time forms, fractional-second offsets and
non-ASCII digits are outside the model; fractional seconds are
validated but their value is dropped, because the relevant `strftime`
pattern does not print them. -/

/-- Numeric value of an ASCII digit character. -/
def d2n (c : Char) : Nat := c.toNat - '0'.toNat

def isLeap (y : Nat) : Bool := (y % 4 == 0 && y % 100 != 0) || y % 400 == 0

def daysInMonth (y m : Nat) : Nat :=
  if m == 2 then (if isLeap y then 29 else 28)
  else if m == 4 || m == 6 || m == 9 || m == 11 then 30
  else 31

/-- Parse a 10-character `YYYY-MM-DD` date with the range validation
`datetime` performs. -/
def parseDate : List Char → Option (Nat × Nat × Nat)
  | [y1, y2, y3, y4, s1, m1, m2, s2, d1, d2] =>
    if y1.isDigit ∧ y2.isDigit ∧ y3.isDigit ∧ y4.isDigit ∧ s1 = '-' ∧
        m1.isDigit ∧ m2.isDigit ∧ s2 = '-' ∧ d1.isDigit ∧ d2.isDigit then
      let y := 1000 * d2n y1 + 100 * d2n y2 + 10 * d2n y3 + d2n y4
      let m := 10 * d2n m1 + d2n m2
      let d := 10 * d2n d1 + d2n d2
      if 1 ≤ y ∧ 1 ≤ m ∧ m ≤ 12 ∧ 1 ≤ d ∧ d ≤ daysInMonth y m then some (y, m, d)
      else none
    else none
  | _ => none

/-- A character that starts the timezone part of an ISO time string. -/
def isTzSentinel (c : Char) : Bool := c == '+' || c == '-' || c == 'Z'

/-- Split a time string at the first timezone sentinel, as the CPython
parser locates the timezone part. -/
def splitTz : List Char → List Char × List Char
  | [] => ([], [])
  | c :: rest =>
    if isTzSentinel c then ([], c :: rest)
    else
      let p := splitTz rest
      (c :: p.1, p.2)

/-- Whether a fractional-second suffix is well formed: nothing, or a
`.`/`,` separator followed by at least one digit. -/
def fracOk (cs : List Char) : Bool :=
  match cs with
  | [] => true
  | c :: ds => (c == '.' || c == ',') && !ds.isEmpty && ds.all Char.isDigit

/-- Parse the time-of-day part `HH[:MM[:SS[.fff...]]]` with range
validation. -/
def parseTOD : List Char → Option (Nat × Nat × Nat)
  | [h1, h2] =>
    if h1.isDigit ∧ h2.isDigit ∧ 10 * d2n h1 + d2n h2 ≤ 23 then
      some (10 * d2n h1 + d2n h2, 0, 0)
    else none
  | [h1, h2, ':', m1, m2] =>
    if h1.isDigit ∧ h2.isDigit ∧ m1.isDigit ∧ m2.isDigit ∧
        10 * d2n h1 + d2n h2 ≤ 23 ∧ 10 * d2n m1 + d2n m2 ≤ 59 then
      some (10 * d2n h1 + d2n h2, 10 * d2n m1 + d2n m2, 0)
    else none
  | h1 :: h2 :: ':' :: m1 :: m2 :: ':' :: s1 :: s2 :: rest =>
    if h1.isDigit ∧ h2.isDigit ∧ m1.isDigit ∧ m2.isDigit ∧ s1.isDigit ∧ s2.isDigit ∧
        10 * d2n h1 + d2n h2 ≤ 23 ∧ 10 * d2n m1 + d2n m2 ≤ 59 ∧
        10 * d2n s1 + d2n s2 ≤ 59 ∧ fracOk rest then
      some (10 * d2n h1 + d2n h2, 10 * d2n m1 + d2n m2, 10 * d2n s1 + d2n s2)
    else none
  | _ => none

/-- Offset value in minutes of a `±HH:MM` timezone. -/
def tzVal (c h1 h2 m1 m2 : Char) : Int :=
  let mins : Int := ((10 * d2n h1 + d2n h2) * 60 + (10 * d2n m1 + d2n m2) : Nat)
  if c = '-' then -mins else mins

/-- Parse the timezone part: empty (no timezone), `Z`, or `±HH:MM[:SS]`
with range validation.  Returns `some none` for "no timezone". -/
def parseTzPart : List Char → Option (Option Int)
  | [] => some none
  | ['Z'] => some (some 0)
  | [c, h1, h2, ':', m1, m2] =>
    if (c = '+' ∨ c = '-') ∧ h1.isDigit ∧ h2.isDigit ∧ m1.isDigit ∧ m2.isDigit ∧
        10 * d2n h1 + d2n h2 ≤ 23 ∧ 10 * d2n m1 + d2n m2 ≤ 59 then
      some (some (tzVal c h1 h2 m1 m2))
    else none
  | [c, h1, h2, ':', m1, m2, ':', s1, s2] =>
    if (c = '+' ∨ c = '-') ∧ h1.isDigit ∧ h2.isDigit ∧ m1.isDigit ∧ m2.isDigit ∧
        s1.isDigit ∧ s2.isDigit ∧ 10 * d2n h1 + d2n h2 ≤ 23 ∧
        10 * d2n m1 + d2n m2 ≤ 59 ∧ 10 * d2n s1 + d2n s2 ≤ 59 then
      some (some (tzVal c h1 h2 m1 m2))
    else none
  | _ => none

/-- The result of a successful `datetime.fromisoformat`: the broken-down
date-time plus the explicit UTC offset in minutes, if one was given. -/
structure PyDT where
  year : Nat
  month : Nat
  day : Nat
  hour : Nat
  minute : Nat
  second : Nat
  tz : Option Int
deriving DecidableEq

/-- Parse the part after the date separator: time of day followed by an
optional timezone. -/
def parseTime (cs : List Char) : Option (Nat × Nat × Nat × Option Int) :=
  match parseTOD (splitTz cs).1 with
  | none => none
  | some (h, m, s) =>
    match parseTzPart (splitTz cs).2 with
    | none => none
    | some tz => some (h, m, s, tz)

/-- `datetime.fromisoformat` on a character list: ten date characters,
then optionally one arbitrary separator character and a time string. -/
def fromisoformatL (cs : List Char) : Option PyDT :=
  if cs.length < 10 then none
  else
    match parseDate (cs.take 10) with
    | none => none
    | some (y, mo, d) =>
      match cs.drop 10 with
      | [] => some ⟨y, mo, d, 0, 0, 0, none⟩
      | _ :: timeCs =>
        match parseTime timeCs with
        | none => none
        | some (h, mi, s, tz) => some ⟨y, mo, d, h, mi, s, tz⟩

/-- Modelled from the Python standard library: `datetime.fromisoformat`
with Python >= 3.11 semantics, restricted to the extended ISO-8601
format family (see the section comment above). -/
def fromisoformat (s : String) : Option PyDT := fromisoformatL s.toList

/-- Zeller's congruence: day of week of a Gregorian date,
`0 = Saturday, 1 = Sunday, ..., 6 = Friday`. -/
def zeller (y m d : Nat) : Nat :=
  let yy := if m < 3 then y - 1 else y
  let mm := if m < 3 then m + 12 else m
  let k := yy % 100
  let j := yy / 100
  (d + (13 * (mm + 1)) / 5 + k + k / 4 + j / 4 + 5 * j) % 7

def weekdayAbbrev : Nat → String
  | 0 => "Sat"
  | 1 => "Sun"
  | 2 => "Mon"
  | 3 => "Tue"
  | 4 => "Wed"
  | 5 => "Thu"
  | 6 => "Fri"
  | _ => ""

def monthAbbrev : Nat → String
  | 1 => "Jan"
  | 2 => "Feb"
  | 3 => "Mar"
  | 4 => "Apr"
  | 5 => "May"
  | 6 => "Jun"
  | 7 => "Jul"
  | 8 => "Aug"
  | 9 => "Sep"
  | 10 => "Oct"
  | 11 => "Nov"
  | 12 => "Dec"
  | _ => ""

def pad2 (n : Nat) : String := if n < 10 then "0" ++ toString n else toString n

/-- Modelled from the Python standard library:
`datetime.strftime('%a, %d %b %Y %H:%M:%S GMT')` on the parsed fields
(the pattern prints no timezone and no fraction). -/
def strftime822 (dt : PyDT) : String :=
  weekdayAbbrev (zeller dt.year dt.month dt.day) ++ ", " ++ pad2 dt.day ++ " " ++
    monthAbbrev dt.month ++ " " ++ toString dt.year ++ " " ++ pad2 dt.hour ++ ":" ++
    pad2 dt.minute ++ ":" ++ pad2 dt.second ++ " GMT"

/-! ## The per-item mapping of `create_rss_feed` -/

/-- One emitted RSS `item` element: the child elements the source
creates, in source order.  `pubDate = none` means no `pubDate` element
is emitted. -/
structure FeedItem where
  title : String
  description : String
  author : String
  enclosureType : String
  enclosureUrl : String
  enclosureLength : String
  link : String
  pubDate : Option String
  guid : String
deriving DecidableEq

/-- Python `str(...)` on an optional integer: `str(None) = "None"`. -/
def pyStrOfOptInt : Option Int → String
  | none => "None"
  | some n => toString n

/-- The body of the item loop of `create_rss_feed` for an item that
passed the eligibility filter: title/description from
`split_report_title`, author from the committee name, the fixed
enclosure, the link priority chain, the `pubDate` try/except around
`fromisoformat` of the value with `'Z'` appended, and `guid = str(id)`. -/
def buildItem (it : RawItem) : FeedItem :=
  let api_description := it.description.getD ""
  let p := split_report_title api_description
  let committee_name :=
    match it.committee with
    | none => ""
    | some c => c.name.getD ""
  let rss_description := pyStrip p.1
  let link_text :=
    match it.additionalContentUrl with
    | some u => u
    | none =>
      match it.documents with
      | some (doc :: _) =>
        match it.id, doc.documentId with
        | some pid, some did =>
          "https://committees.parliament.uk/publications/" ++ toString pid ++
            "/documents/" ++ toString did ++ "/default/"
        | _, _ => ""
      | _ => ""
  let pubDate :=
    match it.publicationStartDate with
    | none => none
    | some ds =>
      match fromisoformat (ds ++ "Z") with
      | some dt => some (strftime822 dt)
      | none => some ds
  { title := p.2
    description := rss_description
    author := committee_name
    enclosureType := "image/png"
    enclosureUrl := "https://committees.parliament.uk/dist/opengraph-card.png"
    enclosureLength := "123456"
    link := link_text
    pubDate := pubDate
    guid := pyStrOfOptInt it.id }

/-- The item loop of `create_rss_feed`: walk the input sequence in
order, skip items the eligibility filter rejects, and append one
`item` element per accepted item. -/
def create_rss_items : List RawItem → List FeedItem
  | [] => []
  | it :: rest =>
    if acceptItem it then buildItem it :: create_rss_items rest
    else create_rss_items rest

/-! ## Sanity checks against the spec's worked examples -/

example : split_report_title "58th Report - Annual review" = ("58th Report", "Annual review") := by
  decide

example : split_report_title "Some unrelated text" = ("", "Some unrelated text") := by
  decide

example : split_report_title "3rd Special Report: Follow-up" = ("3rd Special Report", "Follow-up") := by
  decide

example : fromisoformat "2024-01-15T10:00:00Z" =
    some ⟨2024, 1, 15, 10, 0, 0, some 0⟩ := by decide

example : fromisoformat "2024-01-15T10:00:00ZZ" = none := by decide

example :
    buildItem
      { id := some 42
        description := some "58th Report - Title X"
        additionalContentUrl := some "https://x.test/1"
        documents := none
        publicationStartDate := some "2024-01-15T10:00:00"
        committee := some { house := some "Commons", name := some "Defence Committee", category := none } } =
      { title := "Title X"
        description := "58th Report"
        author := "Defence Committee"
        enclosureType := "image/png"
        enclosureUrl := "https://committees.parliament.uk/dist/opengraph-card.png"
        enclosureLength := "123456"
        link := "https://x.test/1"
        pubDate := some "Mon, 15 Jan 2024 10:00:00 GMT"
        guid := "42" } := by decide

/-! ## Claim C8: emitted items are the accepted items, in input order -/

/-- Claim C8: for every input sequence of raw items, the item elements
emitted under the channel are exactly the accepted items, in the same
relative order as they appear in the input (no re-sorting, no
duplication, no interleaving changes). -/
theorem c8_items_in_order (items : List RawItem) :
    create_rss_items items = (items.filter acceptItem).map buildItem := by
  induction items with
  | nil => rfl
  | cons it rest ih =>
    cases h : acceptItem it <;> simp [create_rss_items, List.filter_cons, h, ih]

/-! ## Claim C6: House of Lords items are always excluded -/

/-- Claim C6: every item whose `committee.house` equals `"Lords"` is
excluded from the feed — the filter rejects it and no item element is
emitted for it — regardless of all of its other fields. -/
theorem c6_lords_excluded (it : RawItem) (c : Committee)
    (hc : it.committee = some c) (hh : c.house = some "Lords") :
    acceptItem it = false ∧
      ∀ pre post, create_rss_items (pre ++ it :: post) = create_rss_items (pre ++ post) := by
  have hrej : acceptItem it = false := by simp [acceptItem, hc, hh]
  refine ⟨hrej, fun pre post => ?_⟩
  induction pre with
  | nil => simp [create_rss_items, hrej]
  | cons p ps ih => simp only [List.cons_append, create_rss_items, List.append_eq, ih]

/-- Claim C6 witness: a concrete Lords item — even one whose category
is `"Select"` — is rejected and contributes no item element. -/
theorem c6_lords_excluded_witness :
    acceptItem
        { id := some 1, description := none, additionalContentUrl := none,
          documents := none, publicationStartDate := none,
          committee := some { house := some "Lords", name := some "X",
                              category := some { name := some "Select" } } } = false ∧
      create_rss_items
          [{ id := some 1, description := none, additionalContentUrl := none,
             documents := none, publicationStartDate := none,
             committee := some { house := some "Lords", name := some "X",
                                 category := some { name := some "Select" } } }] =
        create_rss_items [] := by
  have h := c6_lords_excluded
    { id := some 1, description := none, additionalContentUrl := none,
      documents := none, publicationStartDate := none,
      committee := some { house := some "Lords", name := some "X",
                          category := some { name := some "Select" } } }
    { house := some "Lords", name := some "X", category := some { name := some "Select" } }
    rfl rfl
  exact ⟨h.1, h.2 [] []⟩

/-! ## Claim C2: the category filter -/

/-- Claim C2 counterexample: an item that is not a Lords item and whose
`committee.category` is a truthy object with no `name` field.  The
claim says such an item is accepted; the code computes
`None != 'Select'` and rejects it. -/
theorem c2_counterexample :
    (RawItem.mk none none none none none
          (some { house := none, name := none, category := some { name := none } })).committee =
        some { house := none, name := none, category := some { name := none } } ∧
      acceptItem
        (RawItem.mk none none none none none
          (some { house := none, name := none, category := some { name := none } })) = false :=
  ⟨rfl, rfl⟩

/-- Claim C2 as amended: for every item not excluded by the Lords rule,
the item is rejected on category grounds iff a (truthy)
`committee.category` object is present whose `name` is not equal to
`"Select"` — including when the `name` field is absent or null.  In
particular `"Backbench"` is rejected, `"Select"` is accepted, an item
with no category at all is accepted, but a category object lacking a
`name` is rejected. -/
theorem c2_category_rule (it : RawItem)
    (hl : ∀ c, it.committee = some c → c.house ≠ some "Lords") :
    acceptItem it = false ↔
      ∃ c cat, it.committee = some c ∧ c.category = some cat ∧ cat.name ≠ some "Select" := by
  cases hcm : it.committee with
  | none => simp [acceptItem, hcm]
  | some c =>
    have hh : (c.house == some "Lords") = false := by
      simpa using hl c hcm
    cases hcat : c.category with
    | none => simp [acceptItem, hcm, hcat, hh]
    | some cat => simp [acceptItem, hcm, hcat, hh]

/-- Claim C2 witness: a `"Backbench"` category item (not a Lords item)
is rejected, via the amended rule. -/
theorem c2_category_rule_witness :
    acceptItem
        { id := none, description := none, additionalContentUrl := none,
          documents := none, publicationStartDate := none,
          committee := some { house := some "Commons", name := none,
                              category := some { name := some "Backbench" } } } = false := by
  refine (c2_category_rule _ ?_).mpr ⟨_, _, rfl, rfl, by decide⟩
  intro c hc
  injection hc with h
  subst h
  decide

/-! ## Claim C7: the guid is always `str(id)` -/

/-- Claim C7: for every accepted item, the emitted `guid` element's
text is the string representation of the source item's `id` field, and
when `id` is absent the guid is the literal placeholder string
`"None"` rather than being omitted or empty. -/
theorem c7_guid_rule (it : RawItem) (_hacc : acceptItem it = true) :
    (∀ n, it.id = some n → (buildItem it).guid = toString n) ∧
    (it.id = none → (buildItem it).guid = "None") := by
  constructor
  · intro n h
    simp [buildItem, pyStrOfOptInt, h]
  · intro h
    simp [buildItem, pyStrOfOptInt, h]

/-- Claim C7 witness: an accepted item without an `id` gets the literal
guid `"None"`; one with `id = 42` gets `"42"`. -/
theorem c7_guid_rule_witness :
    (buildItem
        { id := none, description := none, additionalContentUrl := none,
          documents := none, publicationStartDate := none, committee := none }).guid = "None" ∧
      (buildItem
        { id := some 42, description := none, additionalContentUrl := none,
          documents := none, publicationStartDate := none, committee := none }).guid = "42" :=
  ⟨(c7_guid_rule _ (by decide)).2 rfl, by
    have h := (c7_guid_rule
      { id := some 42, description := none, additionalContentUrl := none,
        documents := none, publicationStartDate := none, committee := none } (by decide)).1 42 rfl
    simpa using h⟩

/-! ## Claim C3: the pubDate branch -/

/-- Claim C3: for every accepted item, if `publicationStartDate` is
present a `'Z'` is appended and the result parsed as ISO-8601; on a
successful parse the emitted `pubDate` is the date formatted as
`"%a, %d %b %Y %H:%M:%S GMT"`, on parse failure the emitted `pubDate`
is exactly the raw unparsed string; if `publicationStartDate` is
absent, no `pubDate` element is emitted at all. -/
theorem c3_pubDate_rule (it : RawItem) (_hacc : acceptItem it = true) :
    (it.publicationStartDate = none → (buildItem it).pubDate = none) ∧
    (∀ ds dt, it.publicationStartDate = some ds → fromisoformat (ds ++ "Z") = some dt →
      (buildItem it).pubDate = some (strftime822 dt)) ∧
    (∀ ds, it.publicationStartDate = some ds → fromisoformat (ds ++ "Z") = none →
      (buildItem it).pubDate = some ds) := by
  refine ⟨fun h => ?_, fun ds dt h hiso => ?_, fun ds h hiso => ?_⟩
  · simp [buildItem, h]
  · simp [buildItem, h, hiso]
  · simp [buildItem, h, hiso]

/-- Claim C3 witness: a well-formed date is reformatted to RFC-822, a
malformed one is emitted raw, and an absent one yields no `pubDate`. -/
theorem c3_pubDate_rule_witness :
    (buildItem
        { id := none, description := none, additionalContentUrl := none,
          documents := none, publicationStartDate := some "2024-01-15T10:00:00",
          committee := none }).pubDate = some "Mon, 15 Jan 2024 10:00:00 GMT" ∧
      (buildItem
        { id := none, description := none, additionalContentUrl := none,
          documents := none, publicationStartDate := some "not a date",
          committee := none }).pubDate = some "not a date" ∧
      (buildItem
        { id := none, description := none, additionalContentUrl := none,
          documents := none, publicationStartDate := none,
          committee := none }).pubDate = none := by
  refine ⟨?_, ?_, ?_⟩
  · have h := (c3_pubDate_rule
      { id := none, description := none, additionalContentUrl := none,
        documents := none, publicationStartDate := some "2024-01-15T10:00:00",
        committee := none } (by decide)).2.1 "2024-01-15T10:00:00"
      ⟨2024, 1, 15, 10, 0, 0, some 0⟩ rfl (by decide)
    simpa using h
  · exact (c3_pubDate_rule _ (by decide)).2.2 "not a date" rfl (by decide)
  · exact (c3_pubDate_rule _ (by decide)).1 rfl

/-! ## Claim C4: the link priority chain -/

/-- Claim C4: for every accepted item, the `link` is derived by
priority — `additionalContentUrl` when present and non-null; else the
constructed publications URL when `documents` is a non-empty sequence
and both the item's `id` and the first document's `documentId` are
present; otherwise the empty string. -/
theorem c4_link_rule (it : RawItem) (_hacc : acceptItem it = true) :
    (∀ u, it.additionalContentUrl = some u → (buildItem it).link = u) ∧
    (∀ d rest pid did, it.additionalContentUrl = none → it.documents = some (d :: rest) →
      it.id = some pid → d.documentId = some did →
      (buildItem it).link =
        "https://committees.parliament.uk/publications/" ++ toString pid ++
          "/documents/" ++ toString did ++ "/default/") ∧
    (it.additionalContentUrl = none →
      (it.documents = none ∨ it.documents = some [] ∨
        ∃ d rest, it.documents = some (d :: rest) ∧ (it.id = none ∨ d.documentId = none)) →
      (buildItem it).link = "") := by
  refine ⟨fun u h => by simp [buildItem, h], fun d rest pid did h hdoc hid hdid => by
    simp [buildItem, h, hdoc, hid, hdid], fun h hcase => ?_⟩
  rcases hcase with hdoc | hdoc | ⟨d, rest, hdoc, hmiss⟩
  · simp [buildItem, h, hdoc]
  · simp [buildItem, h, hdoc]
  · rcases hmiss with hid | hdid
    · simp [buildItem, h, hdoc, hid]
    · cases hid : it.id with
      | none => simp [buildItem, h, hdoc, hid]
      | some pid => simp [buildItem, h, hdoc, hid, hdid]

/-- Claim C4 witness: all three priority levels at concrete inputs —
`additionalContentUrl` wins over `documents`; `documents` with both
identifiers constructs the publications URL; neither yields the empty
string. -/
theorem c4_link_rule_witness :
    (buildItem
        { id := some 7, description := none,
          additionalContentUrl := some "https://x.test/1",
          documents := some [{ documentId := some 9 }],
          publicationStartDate := none, committee := none }).link = "https://x.test/1" ∧
      (buildItem
        { id := some 7, description := none, additionalContentUrl := none,
          documents := some [{ documentId := some 9 }],
          publicationStartDate := none, committee := none }).link =
        "https://committees.parliament.uk/publications/7/documents/9/default/" ∧
      (buildItem
        { id := some 7, description := none, additionalContentUrl := none,
          documents := none, publicationStartDate := none, committee := none }).link = "" := by
  refine ⟨(c4_link_rule _ (by decide)).1 "https://x.test/1" rfl, ?_, ?_⟩
  · have h := (c4_link_rule
      { id := some 7, description := none, additionalContentUrl := none,
        documents := some [{ documentId := some 9 }],
        publicationStartDate := none, committee := none } (by decide)).2.1
      { documentId := some 9 } [] 7 9 rfl rfl rfl rfl
    simpa using h
  · exact (c4_link_rule _ (by decide)).2.2 rfl (Or.inl rfl)

/-! ## Claim C9: absence of optional fields never fails -/

/-- Claim C9: feed construction is total on items with absent optional
fields; every missing field is substituted with an empty string, an
omitted element, or a skip of the item, and the error branch is never
reached for mere absence of a field. -/
theorem c9_missing_fields (it : RawItem) :
    (it.committee = none → acceptItem it = true ∧ (buildItem it).author = "") ∧
    (∀ c, it.committee = some c → c.name = none → (buildItem it).author = "") ∧
    (it.description = none → (buildItem it).title = "" ∧ (buildItem it).description = "") ∧
    (it.additionalContentUrl = none → it.documents = none → (buildItem it).link = "") ∧
    (∀ d rest, it.additionalContentUrl = none → it.documents = some (d :: rest) →
      it.id = none → (buildItem it).link = "") ∧
    (it.publicationStartDate = none → (buildItem it).pubDate = none) ∧
    (it.id = none → (buildItem it).guid = "None") := by
  refine ⟨fun h => ⟨by simp [acceptItem, h], by simp [buildItem, h]⟩,
    fun c hc hn => by simp [buildItem, hc, hn],
    fun h => ⟨?_, ?_⟩,
    fun h hdoc => by simp [buildItem, h, hdoc],
    fun d rest h hdoc hid => by simp [buildItem, h, hdoc, hid],
    fun h => by simp [buildItem, h],
    fun h => by simp [buildItem, pyStrOfOptInt, h]⟩
  · simp only [buildItem, h]
    decide
  · simp only [buildItem, h]
    decide

/-- Claim C9 witness: the item with every optional field absent is
accepted and maps to the all-default feed item. -/
theorem c9_missing_fields_witness :
    acceptItem (RawItem.mk none none none none none none) = true ∧
      (buildItem (RawItem.mk none none none none none none)).author = "" ∧
      (buildItem (RawItem.mk none none none none none none)).title = "" ∧
      (buildItem (RawItem.mk none none none none none none)).link = "" ∧
      (buildItem (RawItem.mk none none none none none none)).pubDate = none ∧
      (buildItem (RawItem.mk none none none none none none)).guid = "None" := by
  have h := c9_missing_fields (RawItem.mk none none none none none none)
  exact ⟨(h.1 rfl).1, (h.1 rfl).2, (h.2.2.1 rfl).1, h.2.2.2.1 rfl rfl,
    h.2.2.2.2.2.1 rfl, h.2.2.2.2.2.2 rfl⟩

/-! ## Claim C1: the zero-or-many-dividers fallback -/

/-- With enough fuel, the match counter is zero exactly when the
leftmost-match scan finds nothing. -/
theorem countAux_zero_iff :
    ∀ fuel cs, cs.length ≤ fuel → (countAux fuel cs = 0 ↔ findFirstL cs = none) := by
  intro fuel
  induction fuel with
  | zero =>
    intro cs hlen
    have : cs = [] := List.length_eq_zero.mp (Nat.le_zero.mp hlen)
    subst this
    simp [countAux, findFirstL]
  | succ n ih =>
    intro cs hlen
    cases cs with
    | nil => simp [countAux, findFirstL]
    | cons c rest =>
      have hr : rest.length ≤ n := Nat.le_of_succ_le_succ hlen
      cases hm : tryDivMatch (c :: rest) with
      | some after => simp [countAux, findFirstL, hm]
      | none =>
        simp only [countAux, findFirstL, hm]
        rw [ih rest hr]
        cases hf : findFirstL rest with
        | none => simp
        | some p =>
          obtain ⟨b, a⟩ := p
          simp

/-- Claim C1 counterexample: `"58th Report - A - B"` contains two
matches of the divider pattern, yet `split_report_title` does not
return `("", input)` — with `maxsplit=1` a second divider never forces
the fallback; it simply stays inside the right part. -/
theorem c1_counterexample :
    countMatchesL ("58th Report - A - B").toList = 2 ∧
      split_report_title "58th Report - A - B" ≠ ("", "58th Report - A - B") ∧
      split_report_title "58th Report - A - B" = ("58th Report", "A - B") := by
  refine ⟨by decide, by decide, by decide⟩

/-- Claim C1 as amended: for every input in which the divider pattern
matches zero times, `split_report_title` returns `("", input)` with the
original string unchanged; when the pattern matches one or more times
the string is split at the first match only, and `("", input)` is
returned exactly when the stripped left part fails the ordinal
pattern. -/
theorem c1_zero_match_fallback (s : String) :
    (countMatchesL s.toList = 0 → split_report_title s = ("", s)) ∧
    (∀ b a, findFirstL s.toList = some (b, a) →
      split_report_title s =
        if ordinalMatchL (pyStripL b) then (String.mk (pyStripL b), String.mk (pyStripL a))
        else ("", s)) := by
  constructor
  · intro h
    have hf : findFirstL s.data = none := (countAux_zero_iff _ _ le_rfl).mp h
    simp [split_report_title, hf]
  · intro b a hf
    have hf' : findFirstL s.data = some (b, a) := hf
    simp [split_report_title, hf']

/-- Claim C1 witness: a divider-free input is returned unchanged. -/
theorem c1_zero_match_fallback_witness :
    split_report_title "Some unrelated text" = ("", "Some unrelated text") :=
  (c1_zero_match_fallback "Some unrelated text").1 (by decide)

/-! ## Claim C10: dates that already carry a timezone always fall back

The source appends `'Z'` before parsing.  A string that already ends in
`'Z'`, or that parses as a date-time with an explicit offset, can never
re-parse after a second `'Z'` is appended, so its `pubDate` is always
the raw string. -/

theorem splitTz_append_eq (cs : List Char) :
    (splitTz cs).1 ++ (splitTz cs).2 = cs := by
  induction cs with
  | nil => rfl
  | cons c rest ih =>
    cases h : isTzSentinel c <;> simp [splitTz, h, ih]

theorem splitTz_fst_no_sentinel (cs : List Char) :
    ∀ c ∈ (splitTz cs).1, isTzSentinel c = false := by
  induction cs with
  | nil => simp [splitTz]
  | cons c rest ih =>
    intro x hx
    cases h : isTzSentinel c
    · rw [splitTz] at hx
      simp only [h, Bool.false_eq_true, if_false] at hx
      rcases List.mem_cons.mp hx with rfl | hx'
      · exact h
      · exact ih x hx'
    · rw [splitTz] at hx
      simp [h] at hx

theorem splitTz_snd_head (cs : List Char) :
    (splitTz cs).2 = [] ∨
      ∃ d t, (splitTz cs).2 = d :: t ∧ isTzSentinel d = true := by
  induction cs with
  | nil => exact Or.inl rfl
  | cons c rest ih =>
    cases h : isTzSentinel c
    · simpa [splitTz, h] using ih
    · exact Or.inr ⟨c, rest, by simp [splitTz, h], h⟩

/-- `splitTz` passes over a sentinel-free block unchanged. -/
theorem splitTz_sentinel_free_append (a b : List Char)
    (ha : ∀ c ∈ a, isTzSentinel c = false) :
    splitTz (a ++ b) = (a ++ (splitTz b).1, (splitTz b).2) := by
  induction a with
  | nil => simp
  | cons c a' ih =>
    have hc : isTzSentinel c = false := ha c (List.mem_cons_self c a')
    have ha' : ∀ x ∈ a', isTzSentinel x = false := fun x hx => ha x (List.mem_cons_of_mem c hx)
    simp [splitTz, hc, ih ha']

/-- A successfully parsed timezone part is empty, exactly `Z`, or ends
in a digit. -/
theorem parseTzPart_shape {l : List Char} {v : Option Int}
    (h : parseTzPart l = some v) :
    l = [] ∨ l = ['Z'] ∨ ∃ c, l.getLast? = some c ∧ c.isDigit = true := by
  unfold parseTzPart at h
  split at h
  · exact Or.inl rfl
  · exact Or.inr (Or.inl rfl)
  · rename_i c h1 h2 m1 m2
    split at h
    · rename_i hcond
      exact Or.inr (Or.inr ⟨m2, rfl, hcond.2.2.2.2.1⟩)
    · exact absurd h (by simp)
  · rename_i c h1 h2 m1 m2 s1 s2
    split at h
    · rename_i hcond
      exact Or.inr (Or.inr ⟨s2, rfl, hcond.2.2.2.2.2.2.1⟩)
    · exact absurd h (by simp)
  · exact absurd h (by simp)

/-- A timezone part that parses to an explicit offset starts with a
sentinel character. -/
theorem parseTzPart_offset_head {l : List Char} {ofs : Int}
    (h : parseTzPart l = some (some ofs)) :
    ∃ d t, l = d :: t ∧ isTzSentinel d = true := by
  unfold parseTzPart at h
  split at h
  · exact absurd h (by simp)
  · exact ⟨'Z', [], rfl, rfl⟩
  · rename_i c h1 h2 m1 m2
    split at h
    · rename_i hcond
      refine ⟨c, _, rfl, ?_⟩
      rcases hcond.1 with h' | h' <;> simp [isTzSentinel, h']
    · exact absurd h (by simp)
  · rename_i c h1 h2 m1 m2 s1 s2
    split at h
    · rename_i hcond
      refine ⟨c, _, rfl, ?_⟩
      rcases hcond.1 with h' | h' <;> simp [isTzSentinel, h']
    · exact absurd h (by simp)
  · exact absurd h (by simp)

/-- A successfully parsed `YYYY-MM-DD` block ends in a digit. -/
theorem parseDate_last_digit {cs : List Char} {v : Nat × Nat × Nat}
    (h : parseDate cs = some v) :
    ∃ c, cs.getLast? = some c ∧ c.isDigit = true := by
  unfold parseDate at h
  split at h
  · rename_i y1 y2 y3 y4 s1 m1 m2 s2 d1 d2
    split at h
    · rename_i hcond
      exact ⟨d2, rfl, hcond.2.2.2.2.2.2.2.2.2⟩
    · exact absurd h (by simp)
  · exact absurd h (by simp)

/-- No time string ending in two `Z` characters parses. -/
theorem parseTime_ZZ (l : List Char) : parseTime (l ++ ['Z', 'Z']) = none := by
  unfold parseTime
  cases hTOD : parseTOD (splitTz (l ++ ['Z', 'Z'])).1 with
  | none => rfl
  | some v =>
    obtain ⟨h, m, s⟩ := v
    cases hTz : parseTzPart (splitTz (l ++ ['Z', 'Z'])).2 with
    | none => rfl
    | some tz =>
      exfalso
      rcases splitTz_snd_head (l ++ ['Z', 'Z']) with hnil | ⟨d, tl, hcons, _⟩
      · have hap := splitTz_append_eq (l ++ ['Z', 'Z'])
        rw [hnil, List.append_nil] at hap
        have hz : 'Z' ∈ (splitTz (l ++ ['Z', 'Z'])).1 := by
          rw [hap]
          exact List.mem_append_right l (by simp)
        have := splitTz_fst_no_sentinel (l ++ ['Z', 'Z']) 'Z' hz
        simp [isTzSentinel] at this
      · rcases parseTzPart_shape hTz with h1 | h2 | ⟨c, hlast, hdig⟩
        · rw [hcons] at h1
          exact List.cons_ne_nil d tl h1
        · have hap := splitTz_append_eq (l ++ ['Z', 'Z'])
          rw [h2] at hap
          have heq : (splitTz (l ++ ['Z', 'Z'])).1 ++ ['Z'] = (l ++ ['Z']) ++ ['Z'] := by
            rw [hap, List.append_assoc]
            rfl
          have hfst : (splitTz (l ++ ['Z', 'Z'])).1 = l ++ ['Z'] :=
            List.append_cancel_right heq
          have hz : 'Z' ∈ (splitTz (l ++ ['Z', 'Z'])).1 := by
            rw [hfst]
            exact List.mem_append_right l (by simp)
          have := splitTz_fst_no_sentinel (l ++ ['Z', 'Z']) 'Z' hz
          simp [isTzSentinel] at this
        · have hap := splitTz_append_eq (l ++ ['Z', 'Z'])
          have hlastZ : (l ++ ['Z', 'Z']).getLast? = some 'Z' := by
            have : l ++ ['Z', 'Z'] = (l ++ ['Z']) ++ ['Z'] := by
              rw [List.append_assoc]
              rfl
            rw [this]
            exact List.getLast?_concat _
          have hsame : (l ++ ['Z', 'Z']).getLast? = (splitTz (l ++ ['Z', 'Z'])).2.getLast? := by
            conv_lhs => rw [← hap]
            rw [hcons]
            exact List.getLast?_append_cons _ _ _
          rw [hsame, hlast] at hlastZ
          have : c = 'Z' := by injection hlastZ
          rw [this] at hdig
          simp at hdig

theorem parseTime_nil : parseTime ([] : List Char) = none := rfl

theorem parseTime_singleZ : parseTime ['Z'] = none := rfl

/-- Appending `'Z'` to any string that already ends in `'Z'` never
parses: the result ends in `"ZZ"`. -/
theorem fromisoformatL_ZZ (l : List Char) : fromisoformatL (l ++ ['Z', 'Z']) = none := by
  unfold fromisoformatL
  by_cases hlen : (l ++ ['Z', 'Z']).length < 10
  · rw [if_pos hlen]
  · have hlen8 : 8 ≤ l.length := by
      simp only [List.length_append, List.length_cons, List.length_nil] at hlen
      omega
    rw [if_neg hlen]
    cases hd : parseDate ((l ++ ['Z', 'Z']).take 10) with
    | none => rfl
    | some v =>
      obtain ⟨y, mo, d⟩ := v
      have h8 : l.length = 8 ∨ l.length = 9 ∨ l.length = 10 ∨ 11 ≤ l.length := by omega
      rcases h8 with h8 | h9 | h10 | h11
      · exfalso
        have hall : (l ++ ['Z', 'Z']).take 10 = l ++ ['Z', 'Z'] :=
          List.take_of_length_le (by simp [h8])
        rw [hall] at hd
        obtain ⟨c, hlast, hdig⟩ := parseDate_last_digit hd
        have hlastZ : (l ++ ['Z', 'Z']).getLast? = some 'Z' := by
          have hassoc : l ++ ['Z', 'Z'] = (l ++ ['Z']) ++ ['Z'] := by
            rw [List.append_assoc]
            rfl
          rw [hassoc]
          exact List.getLast?_concat _
        rw [hlast] at hlastZ
        have hcz : c = 'Z' := by injection hlastZ
        rw [hcz] at hdig
        simp at hdig
      · have hdrop : (l ++ ['Z', 'Z']).drop 10 = ['Z'] := by
          rw [List.drop_append_eq_append_drop, List.drop_eq_nil_of_le (by omega), h9]
          rfl
        rw [hdrop]
        rfl
      · have hdrop : (l ++ ['Z', 'Z']).drop 10 = ['Z', 'Z'] := by
          rw [List.drop_append_eq_append_drop, List.drop_eq_nil_of_le (by omega), h10]
          rfl
        rw [hdrop]
        rfl
      · have hlen10 : 10 ≤ l.length := by omega
        have hdrop : (l ++ ['Z', 'Z']).drop 10 = l.drop 10 ++ ['Z', 'Z'] := by
          rw [List.drop_append_eq_append_drop, Nat.sub_eq_zero_of_le hlen10]
          rfl
        have hne : l.drop 10 ≠ [] := by
          intro hcontra
          have hlc := congrArg List.length hcontra
          simp [List.length_drop] at hlc
          omega
        obtain ⟨x, xs, hxs⟩ := List.exists_cons_of_ne_nil hne
        rw [hdrop, hxs, List.cons_append]
        simp only [parseTime_ZZ]

/-- The timezone part of a time string that parsed with an explicit
offset cannot absorb a trailing `'Z'`. -/
theorem parseTzPart_concat_Z {snd : List Char} {ofs : Int}
    (hTz : parseTzPart snd = some (some ofs)) :
    parseTzPart (snd ++ ['Z']) = none := by
  cases hP : parseTzPart (snd ++ ['Z']) with
  | none => rfl
  | some v =>
    exfalso
    obtain ⟨dch, tl, hsnd, _⟩ := parseTzPart_offset_head hTz
    rcases parseTzPart_shape hP with h1 | h2 | ⟨c, hlast, hdig⟩
    · rw [hsnd] at h1
      simp at h1
    · have : snd = [] := by
        have h2' : snd ++ ['Z'] = [] ++ ['Z'] := by simpa using h2
        exact List.append_cancel_right h2'
      rw [hsnd] at this
      exact List.cons_ne_nil dch tl this
    · rw [List.getLast?_concat] at hlast
      have : c = 'Z' := by injection hlast with h'; exact h'.symm
      rw [this] at hdig
      simp at hdig

/-- A time string that parsed with an explicit offset no longer parses
once a `'Z'` is appended. -/
theorem parseTime_appendZ_of_tz {timeCs : List Char} {hh mi ss : Nat} {ofs : Int}
    (hT : parseTime timeCs = some (hh, mi, ss, some ofs)) :
    parseTime (timeCs ++ ['Z']) = none := by
  unfold parseTime at hT
  cases hTOD : parseTOD (splitTz timeCs).1 with
  | none => rw [hTOD] at hT; exact absurd hT (by simp)
  | some tv =>
    obtain ⟨th, tm, ts⟩ := tv
    rw [hTOD] at hT
    cases hTz : parseTzPart (splitTz timeCs).2 with
    | none => rw [hTz] at hT; exact absurd hT (by simp)
    | some tzv =>
      rw [hTz] at hT
      simp only [Option.some.injEq, Prod.mk.injEq] at hT
      obtain ⟨hth, htm, hts, htzv⟩ := hT
      subst hth htm hts htzv
      obtain ⟨dch, tl, hsnd, hdch⟩ := parseTzPart_offset_head hTz
      have hdecomp : timeCs ++ ['Z'] = (splitTz timeCs).1 ++ ((splitTz timeCs).2 ++ ['Z']) := by
        rw [← List.append_assoc, splitTz_append_eq]
      have hsplit2 : splitTz ((splitTz timeCs).2 ++ ['Z']) = ([], (splitTz timeCs).2 ++ ['Z']) := by
        rw [hsnd, List.cons_append]
        simp [splitTz, hdch]
      have hsplit : splitTz (timeCs ++ ['Z']) =
          ((splitTz timeCs).1, (splitTz timeCs).2 ++ ['Z']) := by
        rw [hdecomp, splitTz_sentinel_free_append _ _ (splitTz_fst_no_sentinel timeCs),
          hsplit2, List.append_nil]
      unfold parseTime
      rw [hsplit]
      simp only [hTOD, parseTzPart_concat_Z hTz]

/-- Appending `'Z'` to a string that parses with an explicit UTC offset
never parses: the timezone part gains a trailing `'Z'`. -/
theorem fromisoformatL_appendZ_of_tz {cs : List Char} {dt : PyDT} {ofs : Int}
    (h : fromisoformatL cs = some dt) (htz : dt.tz = some ofs) :
    fromisoformatL (cs ++ ['Z']) = none := by
  unfold fromisoformatL at h
  by_cases hlen : cs.length < 10
  · rw [if_pos hlen] at h
    exact absurd h (by simp)
  · rw [if_neg hlen] at h
    cases hd : parseDate (cs.take 10) with
    | none =>
      rw [hd] at h
      exact absurd h (by simp)
    | some v =>
      obtain ⟨y, mo, d⟩ := v
      rw [hd] at h
      dsimp only at h
      cases hdr : cs.drop 10 with
      | nil =>
        rw [hdr] at h
        dsimp only at h
        have hdt : PyDT.mk y mo d 0 0 0 none = dt := by injection h
        rw [← hdt] at htz
        exact absurd htz (by simp)
      | cons sep timeCs =>
        rw [hdr] at h
        dsimp only at h
        cases hT : parseTime timeCs with
        | none =>
          rw [hT] at h
          exact absurd h (by simp)
        | some w =>
          obtain ⟨hh, mi, ss, tz0⟩ := w
          rw [hT] at h
          dsimp only at h
          have hdt : PyDT.mk y mo d hh mi ss tz0 = dt := by injection h
          have htz0 : tz0 = some ofs := by rw [← hdt] at htz; exact htz
          subst htz0
          have hlen10 : 10 ≤ cs.length := Nat.le_of_not_lt hlen
          unfold fromisoformatL
          have hlen2 : ¬ (cs ++ ['Z']).length < 10 := by
            simp only [List.length_append, List.length_cons, List.length_nil]
            omega
          rw [if_neg hlen2]
          have htake : (cs ++ ['Z']).take 10 = cs.take 10 :=
            List.take_append_of_le_length hlen10
          have hdrop : (cs ++ ['Z']).drop 10 = sep :: (timeCs ++ ['Z']) := by
            rw [List.drop_append_of_le_length hlen10, hdr, List.cons_append]
          rw [htake, hd, hdrop]
          simp only [parseTime_appendZ_of_tz hT]

/-- Claim C10: for every accepted item whose `publicationStartDate`
string already ends in `'Z'` or carries an explicit UTC offset (that
is, parses as an ISO-8601 date-time with an explicit offset), the
emitted `pubDate` is the raw unparsed string — the fallback branch is
always taken, because the code unconditionally appends a second `'Z'`
before parsing, which makes the ISO-8601 parse fail. -/
theorem c10_tz_fallback (it : RawItem) (ds : String)
    (_hacc : acceptItem it = true) (hps : it.publicationStartDate = some ds)
    (hz : (∃ l, ds.data = l ++ ['Z']) ∨
      (∃ dt ofs, fromisoformat ds = some dt ∧ dt.tz = some ofs)) :
    fromisoformat (ds ++ "Z") = none ∧ (buildItem it).pubDate = some ds := by
  have hdata : (ds ++ "Z").data = ds.data ++ ['Z'] := rfl
  have hiso : fromisoformat (ds ++ "Z") = none := by
    show fromisoformatL (ds ++ "Z").data = none
    rw [hdata]
    rcases hz with ⟨l, hl⟩ | ⟨dt, ofs, hdt, htz⟩
    · rw [hl, List.append_assoc]
      exact fromisoformatL_ZZ l
    · exact fromisoformatL_appendZ_of_tz hdt htz
  exact ⟨hiso, by simp [buildItem, hps, hiso]⟩

/-- Claim C10 witness: a timestamp already ending in `'Z'`, and one
carrying the explicit offset `+00:00`, are both emitted raw. -/
theorem c10_tz_fallback_witness :
    (fromisoformat ("2024-01-15T10:00:00Z" ++ "Z") = none ∧
      (buildItem (RawItem.mk none none none none
          (some "2024-01-15T10:00:00Z") none)).pubDate = some "2024-01-15T10:00:00Z") ∧
      (fromisoformat ("2024-01-15T10:00:00+00:00" ++ "Z") = none ∧
        (buildItem (RawItem.mk none none none none
            (some "2024-01-15T10:00:00+00:00") none)).pubDate =
          some "2024-01-15T10:00:00+00:00") :=
  ⟨c10_tz_fallback _ _ (by decide) rfl
      (Or.inl ⟨"2024-01-15T10:00:00".data, by decide⟩),
    c10_tz_fallback _ _ (by decide) rfl
      (Or.inr ⟨⟨2024, 1, 15, 10, 0, 0, some 0⟩, 0, by decide, rfl⟩)⟩

/-! ## Claim C5: well-formed report titles always split

Supporting lemmas: the leftmost-match scan passes over characters that
are neither whitespace nor dividers, and fires at the first divider
block. -/

/-- The divider pattern cannot match at a character that is neither
whitespace nor a divider. -/
theorem tryDivMatch_plain {c : Char} (rest : List Char)
    (hws : isPySpace c = false) (hdiv : isDivider c = false) :
    tryDivMatch (c :: rest) = none := by
  unfold tryDivMatch dropLeadWs
  rw [List.dropWhile_cons]
  simp [hws, hdiv]

/-- The scan passes over a block of non-whitespace non-divider
characters unchanged. -/
theorem findFirstL_plain_append (a tail : List Char)
    (ha : ∀ c ∈ a, isPySpace c = false ∧ isDivider c = false) :
    findFirstL (a ++ tail) = (findFirstL tail).map fun p => (a ++ p.1, p.2) := by
  induction a with
  | nil =>
    simp only [List.nil_append]
    cases h : findFirstL tail with
    | none => simp
    | some p => simp
  | cons c a' ih =>
    have hc := ha c (List.mem_cons_self c a')
    have ha' : ∀ x ∈ a', isPySpace x = false ∧ isDivider x = false :=
      fun x hx => ha x (List.mem_cons_of_mem c hx)
    have hstep : findFirstL (c :: (a' ++ tail)) =
        match findFirstL (a' ++ tail) with
        | none => none
        | some (b, aft) => some (c :: b, aft) := by
      rw [findFirstL, tryDivMatch_plain _ hc.1 hc.2]
    rw [List.cons_append, hstep, ih ha']
    cases findFirstL tail with
    | none => rfl
    | some p =>
      obtain ⟨b, aft⟩ := p
      rfl

/-- A digit is neither whitespace nor a divider. -/
theorem digit_not_ws_div {c : Char} (h : c.isDigit = true) :
    isPySpace c = false ∧ isDivider c = false := by
  constructor
  · cases hw : isPySpace c
    · rfl
    · exfalso
      simp only [isPySpace, Bool.or_eq_true, beq_iff_eq] at hw
      rcases hw with ((((rfl | rfl) | rfl) | rfl) | rfl) | rfl <;> exact absurd h (by decide)
  · cases hd : isDivider c
    · rfl
    · exfalso
      simp only [isDivider, Bool.or_eq_true, beq_iff_eq] at hd
      rcases hd with ((rfl | rfl) | rfl) | rfl <;> exact absurd h (by decide)

/-- The scan fires at the `" - "` divider block after `" Report"`. -/
theorem findFirstL_report_block (t : List Char) :
    findFirstL (" Report - ".toList ++ t) =
      some (" Report".toList, dropLeadWs t) := rfl

/-- The scan fires at the `": "` divider block after `" Special Report"`. -/
theorem findFirstL_special_block (t : List Char) :
    findFirstL (" Special Report: ".toList ++ t) =
      some (" Special Report".toList, dropLeadWs t) := rfl

/-- Stripping after dropping leading whitespace is plain stripping. -/
theorem pyStripL_dropLeadWs (cs : List Char) :
    pyStripL (dropLeadWs cs) = pyStripL cs := by
  have hidem : (cs.dropWhile fun c => isPySpace c).dropWhile (fun c => isPySpace c) =
      cs.dropWhile fun c => isPySpace c := by
    induction cs with
    | nil => rfl
    | cons c rest ih =>
      cases h : isPySpace c
      · simp [List.dropWhile_cons, h]
      · simp [List.dropWhile_cons, h, ih]
  unfold pyStripL dropLeadWs
  rw [hidem]

/-- Stripping a list that starts and ends with non-whitespace is the
identity. -/
theorem pyStripL_eq_self {c e : Char} (m : List Char)
    (hc : isPySpace c = false) (he : isPySpace e = false) :
    pyStripL (c :: (m ++ [e])) = c :: (m ++ [e]) := by
  have h1 : (c :: (m ++ [e])).reverse = e :: (m.reverse ++ [c]) := by
    simp
  unfold pyStripL
  rw [List.dropWhile_cons, if_neg (by simp [hc]), h1, List.dropWhile_cons,
    if_neg (by simp [he]), ← h1, List.reverse_reverse]

/-- `takeWhile isDigit` stops exactly at the end of a leading digit
block. -/
theorem takeWhile_digits_append (ds : List Char) (a : Char) (rest : List Char)
    (h : ∀ c ∈ ds, c.isDigit = true) (ha : a.isDigit = false) :
    (ds ++ a :: rest).takeWhile Char.isDigit = ds := by
  induction ds with
  | nil => simp [List.takeWhile_cons, ha]
  | cons d ds' ih =>
    have hd := h d (List.mem_cons_self d ds')
    have h' : ∀ c ∈ ds', c.isDigit = true := fun c hc => h c (List.mem_cons_of_mem d hc)
    simp [List.takeWhile_cons, hd, ih h']

theorem split_report_title_mk (cs : List Char) :
    split_report_title (String.mk cs) =
      match findFirstL cs with
      | none => ("", String.mk cs)
      | some (b, a) =>
        if ordinalMatchL (pyStripL b) then (String.mk (pyStripL b), String.mk (pyStripL a))
        else ("", String.mk cs) := rfl

/-- `"<digits><suffix> Report - <text>"` splits into the ordinal part
and the stripped text. -/
theorem split_variant1 (ds : List Char) (a b : Char) (txt : String)
    (hne : ds ≠ []) (hds : ∀ c ∈ ds, c.isDigit = true)
    (hadig : a.isDigit = false) (haws : isPySpace a = false) (hadiv : isDivider a = false)
    (hbws : isPySpace b = false) (hbdiv : isDivider b = false)
    (hsuf : ordinalSuffixOk a.toLower b.toLower = true) :
    split_report_title (String.mk (ds ++ (a :: b :: (" Report - ".toList ++ txt.toList)))) =
      (String.mk (ds ++ (a :: b :: " Report".toList)), pyStrip txt) := by
  have hplain : ∀ c ∈ ds ++ [a, b], isPySpace c = false ∧ isDivider c = false := by
    intro c hc
    rcases List.mem_append.mp hc with hc | hc
    · exact digit_not_ws_div (hds c hc)
    · rcases List.mem_cons.mp hc with rfl | hc
      · exact ⟨haws, hadiv⟩
      · rcases List.mem_cons.mp hc with rfl | hc
        · exact ⟨hbws, hbdiv⟩
        · exact absurd hc (List.not_mem_nil c)
  have h1 := findFirstL_plain_append (ds ++ [a, b]) (" Report - ".toList ++ txt.toList) hplain
  rw [findFirstL_report_block] at h1
  simp only [Option.map_some'] at h1
  have heq : (ds ++ [a, b]) ++ (" Report - ".toList ++ txt.toList) =
      ds ++ (a :: b :: (" Report - ".toList ++ txt.toList)) := by
    rw [List.append_assoc]
    rfl
  have heq2 : (ds ++ [a, b]) ++ " Report".toList = ds ++ (a :: b :: " Report".toList) := by
    rw [List.append_assoc]
    rfl
  rw [heq, heq2] at h1
  obtain ⟨d0, ds', rfl⟩ := List.exists_cons_of_ne_nil hne
  have hd0 : isPySpace d0 = false := (digit_not_ws_div (hds d0 (List.mem_cons_self d0 ds'))).1
  have hshape : (d0 :: ds') ++ (a :: b :: " Report".toList) =
      d0 :: ((ds' ++ (a :: b :: " Repor".toList)) ++ ['t']) := by
    simp
  have hstrip : pyStripL ((d0 :: ds') ++ (a :: b :: " Report".toList)) =
      (d0 :: ds') ++ (a :: b :: " Report".toList) := by
    rw [hshape]
    exact pyStripL_eq_self _ hd0 (by decide)
  have htw : ((d0 :: ds') ++ (a :: b :: " Report".toList)).takeWhile Char.isDigit =
      d0 :: ds' := takeWhile_digits_append _ a _ hds hadig
  have hord : ordinalMatchL ((d0 :: ds') ++ (a :: b :: " Report".toList)) = true := by
    simp only [ordinalMatchL]
    rw [htw, List.drop_left]
    simp [hsuf]
    decide
  rw [split_report_title_mk, h1]
  dsimp only
  rw [hstrip, hord]
  simp only [if_true]
  rw [pyStripL_dropLeadWs]
  rfl

/-- `"<digits><suffix> Special Report: <text>"` splits into the
ordinal part and the stripped text. -/
theorem split_variant2 (ds : List Char) (a b : Char) (txt : String)
    (hne : ds ≠ []) (hds : ∀ c ∈ ds, c.isDigit = true)
    (hadig : a.isDigit = false) (haws : isPySpace a = false) (hadiv : isDivider a = false)
    (hbws : isPySpace b = false) (hbdiv : isDivider b = false)
    (hsuf : ordinalSuffixOk a.toLower b.toLower = true) :
    split_report_title
        (String.mk (ds ++ (a :: b :: (" Special Report: ".toList ++ txt.toList)))) =
      (String.mk (ds ++ (a :: b :: " Special Report".toList)), pyStrip txt) := by
  have hplain : ∀ c ∈ ds ++ [a, b], isPySpace c = false ∧ isDivider c = false := by
    intro c hc
    rcases List.mem_append.mp hc with hc | hc
    · exact digit_not_ws_div (hds c hc)
    · rcases List.mem_cons.mp hc with rfl | hc
      · exact ⟨haws, hadiv⟩
      · rcases List.mem_cons.mp hc with rfl | hc
        · exact ⟨hbws, hbdiv⟩
        · exact absurd hc (List.not_mem_nil c)
  have h1 := findFirstL_plain_append (ds ++ [a, b]) (" Special Report: ".toList ++ txt.toList)
    hplain
  rw [findFirstL_special_block] at h1
  simp only [Option.map_some'] at h1
  have heq : (ds ++ [a, b]) ++ (" Special Report: ".toList ++ txt.toList) =
      ds ++ (a :: b :: (" Special Report: ".toList ++ txt.toList)) := by
    rw [List.append_assoc]
    rfl
  have heq2 : (ds ++ [a, b]) ++ " Special Report".toList =
      ds ++ (a :: b :: " Special Report".toList) := by
    rw [List.append_assoc]
    rfl
  rw [heq, heq2] at h1
  obtain ⟨d0, ds', rfl⟩ := List.exists_cons_of_ne_nil hne
  have hd0 : isPySpace d0 = false := (digit_not_ws_div (hds d0 (List.mem_cons_self d0 ds'))).1
  have hshape : (d0 :: ds') ++ (a :: b :: " Special Report".toList) =
      d0 :: ((ds' ++ (a :: b :: " Special Repor".toList)) ++ ['t']) := by
    simp
  have hstrip : pyStripL ((d0 :: ds') ++ (a :: b :: " Special Report".toList)) =
      (d0 :: ds') ++ (a :: b :: " Special Report".toList) := by
    rw [hshape]
    exact pyStripL_eq_self _ hd0 (by decide)
  have htw : ((d0 :: ds') ++ (a :: b :: " Special Report".toList)).takeWhile Char.isDigit =
      d0 :: ds' := takeWhile_digits_append _ a _ hds hadig
  have hord : ordinalMatchL ((d0 :: ds') ++ (a :: b :: " Special Report".toList)) = true := by
    simp only [ordinalMatchL]
    rw [htw, List.drop_left]
    simp [hsuf]
    decide
  rw [split_report_title_mk, h1]
  dsimp only
  rw [hstrip, hord]
  simp only [if_true]
  rw [pyStripL_dropLeadWs]
  rfl

/-- Claim C5: for every input of the form `"<N><suffix> Report - <text>"`
or `"<N><suffix> Special Report: <text>"` with suffix in
`{st, nd, rd, th}` matched case-insensitively (the ASCII case forms),
`split_report_title` returns `(leftPart, trimmedText)`, both parts
trimmed of surrounding whitespace; in particular
`split("58th Report - Annual review") = ("58th Report", "Annual review")`
(see the witness). -/
theorem c5_report_forms_split (ds sufl : List Char) (txt : String)
    (hne : ds ≠ []) (hds : ∀ c ∈ ds, c.isDigit = true) (hsuf : sufl ∈ suffixForms) :
    split_report_title (String.mk (ds ++ (sufl ++ (" Report - ".toList ++ txt.toList)))) =
        (String.mk (ds ++ (sufl ++ " Report".toList)), pyStrip txt) ∧
      split_report_title
          (String.mk (ds ++ (sufl ++ (" Special Report: ".toList ++ txt.toList)))) =
        (String.mk (ds ++ (sufl ++ " Special Report".toList)), pyStrip txt) := by
  fin_cases hsuf <;>
    exact ⟨split_variant1 ds _ _ txt hne hds (by decide) (by decide) (by decide) (by decide)
        (by decide) (by decide),
      split_variant2 ds _ _ txt hne hds (by decide) (by decide) (by decide) (by decide)
        (by decide) (by decide)⟩

/-- Claim C5 witness: the spec's worked example. -/
theorem c5_report_forms_split_witness :
    split_report_title "58th Report - Annual review" = ("58th Report", "Annual review") := by
  have h := (c5_report_forms_split ['5', '8'] ['t', 'h'] "Annual review" (by decide) (by decide)
    (by decide)).1
  have h2 : String.mk
      (['5', '8'] ++ (['t', 'h'] ++ (" Report - ".toList ++ "Annual review".toList))) =
      "58th Report - Annual review" := by decide
  have h3 : String.mk (['5', '8'] ++ (['t', 'h'] ++ " Report".toList)) = "58th Report" := by
    decide
  have h4 : pyStrip "Annual review" = "Annual review" := by decide
  rw [h2, h3, h4] at h
  exact h

end RssGen
